import Mathlib

/-!
Shallow embedding of the adaptive decision-tree engine of the animal
guessing game (src/HW3-4.cpp).  The C++ `Node` has a question string,
two nullable owned children `yes`/`no`, and a nullable `animal` payload
(carrying a name string through the `DynamicAnimal` class); it is a
leaf exactly when `animal` is non-null.  We model nullable pointers with
`Option`.
-/

namespace HW3

/-- The C++ `Node` class: `question`, nullable `yes`/`no` children and a
nullable `animal` payload (`DynamicAnimal` reduces to its name string). -/
inductive Node where
  | mk (question : String) (yes : Option Node) (no : Option Node) (animal : Option String)

/-- Field accessor for `question`. -/
def Node.question : Node → String
  | .mk q _ _ _ => q

/-- Field accessor for the `yes` child pointer. -/
def Node.yes : Node → Option Node
  | .mk _ y _ _ => y

/-- Field accessor for the `no` child pointer. -/
def Node.no : Node → Option Node
  | .mk _ _ n _ => n

/-- Field accessor for the `animal` payload pointer. -/
def Node.animal : Node → Option String
  | .mk _ _ _ a => a

/-- The C++ constructor `Node(const std::string& question)`: children and
animal pointers start null, question set. -/
def questionNode (q : String) : Node := .mk q none none none

/-- The C++ constructor `Node(std::unique_ptr<Animal> animal)`: question
default-constructed to the empty string, children null, animal set. -/
def leafNode (name : String) : Node := .mk "" none none (some name)

/-- `Node::isLeaf`: `animal != nullptr`. -/
def Node.isLeaf (n : Node) : Bool := n.animal.isSome

/-- The root node built by `resetToInitialState`: the fixed default shape. -/
def defaultRoot : Node :=
  .mk "Is your animal warm or cold blooded?"
    (some (leafNode "Dog")) (some (leafNode "Snake")) none

/-- The C++ `AnimalTree` class: owns a nullable root pointer. -/
structure AnimalTree where
  root : Option Node

/-- `AnimalTree::resetToInitialState`: reassigns the root to the freshly
built default tree, discarding whatever was there. -/
def AnimalTree.resetToInitialState (_t : AnimalTree) : AnimalTree :=
  ⟨some defaultRoot⟩

/-- The `AnimalTree` constructor: calls `resetToInitialState`. -/
def AnimalTree.new : AnimalTree := ⟨some defaultRoot⟩

/-- `AnimalTree::getRoot`: returns the raw root pointer. -/
def AnimalTree.getRoot (t : AnimalTree) : Option Node := t.root

/-- `AnimalTree::collectAnimals` (identical in both versions of the file):
null pointer returns; at a leaf push the animal name; otherwise recurse
into `yes` then `no`, accumulating into the vector. -/
def collectAnimals : Option Node → List String → List String
  | none, acc => acc
  | some (.mk _ y n a), acc =>
    match a with
    | some nm => acc ++ [nm]
    | none => collectAnimals n (collectAnimals y acc)

/-- `listAnimals` body: collect from the root into an empty vector. -/
def collectLabels (t : AnimalTree) : List String :=
  collectAnimals t.getRoot []

/-- The in-place mutation `AnimalGame::learnNewAnimal` performs on the node
`*current` it is given.  The C++ first prints `current->animal->getName()`:
when `current` is a question node, `animal` is null and that dereference is
a crash (undefined behavior), modeled here as `none` — no mutation happens
and no condition is signalled.  On a leaf, a new leaf node is built for the
new name, the old animal pointer is moved into a second fresh leaf node
(whose question string is default-constructed empty), `current->question`
is overwritten, `animal` becomes null, and the branch test `answer == "yes"`
decides which child receives the new animal. -/
def learnAt (cur : Node) (newAnimalName newQuestion answer : String) :
    Option Node :=
  match cur.animal with
  | none => none
  | some oldName =>
    let newAnimalNode := leafNode newAnimalName
    let oldAnimalNode := leafNode oldName
    some (if answer = "yes"
      then .mk newQuestion (some newAnimalNode) (some oldAnimalNode) none
      else .mk newQuestion (some oldAnimalNode) (some newAnimalNode) none)

/-- A node reference (the C++ `Node*` handed to `learnNewAnimal`) is modeled
as the path of yes/no links from the root to the referenced node:
`true` follows `yes`, `false` follows `no`.  `subtreeAt` dereferences
such a path. -/
def subtreeAt : Node → List Bool → Option Node
  | n, [] => some n
  | .mk _ y nn _, b :: p =>
    match (if b then y else nn) with
    | none => none
    | some c => subtreeAt c p

/-- `learnNewAnimal` applied through a path reference: follow the links to
the referenced node and perform the in-place mutation there, rebuilding the
spine (the C++ mutates through the pointer; rebuilding the unchanged spine
is the pure-value rendering of that in-place write). -/
def learnAlong (n : Node) (p : List Bool) (nm q ans : String) : Option Node :=
  match p, n with
  | [], _ => learnAt n nm q ans
  | b :: p', .mk ques y nn a =>
    match (if b then y else nn) with
    | none => none
    | some c =>
      match learnAlong c p' nm q ans with
      | none => none
      | some c' =>
        some (if b then .mk ques (some c') nn a else .mk ques y (some c') a)

/-- Tree-level `learn`: mutate the tree at a path reference into it. -/
def learn (t : AnimalTree) (p : List Bool) (nm q ans : String) :
    Option AnimalTree :=
  match t.root with
  | none => none
  | some r => (learnAlong r p nm q ans).map (fun r' => ⟨some r'⟩)

/-- Total number of nodes reachable from a (nullable) node pointer. -/
def countNodes : Option Node → Nat
  | none => 0
  | some (.mk _ y nn _) => 1 + countNodes y + countNodes nn

/-- Number of nodes of the whole tree. -/
def treeCount (t : AnimalTree) : Nat := countNodes t.getRoot

/-- Modelled from the spec, for comparison with `collectAnimals`: the leaf
labels in depth-first order, `yes` branch before `no` branch (§4.1
`collectLabels`: "order: depth-first, yes branch before no branch"). -/
def specLabelsDFS : Option Node → List String
  | none => []
  | some (.mk _ y nn a) =>
    match a with
    | some nm => [nm]
    | none => specLabelsDFS y ++ specLabelsDFS nn

/-- One executed iteration of the `while (!current->isLeaf())` loop body in
`askQuestions`: `"yes"` reassigns the cursor to the `yes` child pointer,
`"no"` to the `no` child pointer (either may be null in a raw node), and
any other token only prints a re-prompt message and leaves the cursor as
it is. -/
def traverseStep (cur : Node) (answer : String) : Option Node :=
  if answer = "yes" then cur.yes
  else if answer = "no" then cur.no
  else some cur

/-- The traversal loop of `askQuestions` fed a finite list of answer
tokens: the loop condition exits at a leaf; otherwise one token is consumed
per iteration; a null child pointer is a crash on the next dereference,
modeled `none`. -/
def traverse : Node → List String → Option Node
  | cur, [] => some cur
  | cur, a :: rest =>
    if cur.isLeaf then some cur
    else
      match traverseStep cur a with
      | none => none
      | some c => traverse c rest

/-- The possible outcomes of the confirmation phase of `askQuestions`
(the code after the traversal loop): the guess is confirmed, the game
learns a new animal, or — on any other token — a re-prompt message is
printed and `askQuestions` simply returns, ending the round (control falls
through to `promptAfterRound` in `play`). -/
inductive ConfirmResult where
  | guessedRight
  | taught (mutated : Option Node)
  | invalidTokenRoundEnds

/-- The confirmation phase of `askQuestions` at the leaf `cur` the loop
stopped on: `answer == "yes"` prints success; `answer == "no"` calls
`learnNewAnimal(current)` with the teaching inputs `nm`, `q`, `tAns`;
anything else prints the re-prompt message and returns. -/
def confirmGuess (cur : Node) (answer nm q tAns : String) : ConfirmResult :=
  if answer = "yes" then .guessedRight
  else if answer = "no" then .taught (learnAt cur nm q tAns)
  else .invalidTokenRoundEnds

/-- Structural sanity of a node graph as the game ever builds it: a leaf
(non-null `animal`) has both child pointers null, and a question node
(null `animal`) has both child pointers non-null with sane subtrees. -/
def wellFormed : Node → Bool
  | .mk _ y nn a =>
    match a, y, nn with
    | some _, none, none => true
    | none, some c1, some c2 => wellFormed c1 && wellFormed c2
    | _, _, _ => false

/-- The tree states reachable through the public operations: construction,
`resetToInitialState`, and successful `learnNewAnimal` calls. -/
inductive Reachable : AnimalTree → Prop where
  | init : Reachable AnimalTree.new
  | reset (t : AnimalTree) : Reachable t → Reachable t.resetToInitialState
  | learned (t : AnimalTree) (p : List Bool) (nm q ans : String)
      (t' : AnimalTree) : Reachable t → learn t p nm q ans = some t' →
      Reachable t'

/-- One iteration of the traversal loop together with the tree it runs
over: the C++ loop body only reassigns the local cursor pointer and never
writes to the tree, so the tree component passes through untouched. -/
def loopIter (t : AnimalTree) (cur : Node) (ans : String) :
    AnimalTree × Option Node :=
  (t, traverseStep cur ans)

/-- The `listAnimals` call paired with the tree it runs over: the C++
method is `const` (it performs no writes), so the tree component passes
through untouched while the label vector is produced. -/
def listAnimalsCall (t : AnimalTree) : List String × AnimalTree :=
  (collectLabels t, t)

/-! ### Helper lemmas -/

theorem collectAnimals_eq_spec (cur : Option Node) (acc : List String) :
    collectAnimals cur acc = acc ++ specLabelsDFS cur := by
  induction cur, acc using collectAnimals.induct with
  | case1 acc => simp [collectAnimals, specLabelsDFS]
  | case2 q y nn acc nm => simp [collectAnimals, specLabelsDFS]
  | case3 q y nn acc ih1 ih2 =>
    rw [ih1] at ih2
    simp only [collectAnimals, specLabelsDFS, ih1, ih2, List.append_assoc]

theorem collectLabels_eq_spec (t : AnimalTree) :
    collectLabels t = specLabelsDFS t.getRoot := by
  simp [collectLabels, collectAnimals_eq_spec]

theorem wellFormed_leafNode (nm : String) : wellFormed (leafNode nm) = true :=
  rfl

theorem learnAt_leaf (cur : Node) (x nm q ans : String)
    (hx : cur.animal = some x) :
    learnAt cur nm q ans =
      some (if ans = "yes"
        then .mk q (some (leafNode nm)) (some (leafNode x)) none
        else .mk q (some (leafNode x)) (some (leafNode nm)) none) := by
  simp [learnAt, hx]

/-- Central description of a successful `learnNewAnimal` through a path
reference ending at a leaf of a well-formed tree: the mutation succeeds,
preserves well-formedness, installs at the referenced position a question
node whose children carry the new and the old label as `answer` directs,
adds exactly two nodes, and permutes the DFS label list into the old one
with the new label added once. -/
theorem learnAlong_leaf_spec (p : List Bool) (r l : Node) (x nm q ans : String)
    (hwf : wellFormed r = true) (hsub : subtreeAt r p = some l)
    (hx : l.animal = some x) :
    ∃ r', learnAlong r p nm q ans = some r' ∧ wellFormed r' = true ∧
      subtreeAt r' p =
        some (if ans = "yes"
          then Node.mk q (some (leafNode nm)) (some (leafNode x)) none
          else Node.mk q (some (leafNode x)) (some (leafNode nm)) none) ∧
      countNodes (some r') = countNodes (some r) + 2 ∧
      (specLabelsDFS (some r')).Perm (nm :: specLabelsDFS (some r)) := by
  induction p generalizing r with
  | nil =>
    cases r with
    | mk rq ry rn ra =>
      simp only [subtreeAt, Option.some.injEq] at hsub
      subst hsub
      simp only [Node.animal] at hx
      subst hx
      cases ry <;> cases rn <;> simp [wellFormed] at hwf
      refine ⟨if ans = "yes"
          then Node.mk q (some (leafNode nm)) (some (leafNode x)) none
          else Node.mk q (some (leafNode x)) (some (leafNode nm)) none,
        learnAt_leaf _ x nm q ans rfl, ?_, ?_, ?_, ?_⟩
      · by_cases h : ans = "yes" <;> simp [h, wellFormed, leafNode]
      · by_cases h : ans = "yes" <;> simp [h, subtreeAt]
      · by_cases h : ans = "yes" <;> simp [h, countNodes, leafNode]
      · by_cases h : ans = "yes"
        · rw [if_pos h]
          simp only [specLabelsDFS, leafNode]
          exact List.Perm.refl _
        · rw [if_neg h]
          simp only [specLabelsDFS, leafNode]
          exact List.Perm.swap _ _ _
  | cons b p' ih =>
    cases r with
    | mk rq ry rn ra =>
      cases ra with
      | some xx =>
        cases ry <;> cases rn <;> simp [wellFormed] at hwf <;>
          cases b <;> simp [subtreeAt] at hsub
      | none =>
        cases ry with
        | none => cases rn <;> simp [wellFormed] at hwf
        | some c1 =>
          cases rn with
          | none => simp [wellFormed] at hwf
          | some c2 =>
            simp [wellFormed] at hwf
            obtain ⟨hwf1, hwf2⟩ := hwf
            cases b with
            | true =>
              simp [subtreeAt] at hsub
              obtain ⟨c', h1, h2, h3, h4, h5⟩ := ih c1 hwf1 hsub
              refine ⟨.mk rq (some c') (some c2) none, ?_, ?_, ?_, ?_, ?_⟩
              · simp [learnAlong, h1]
              · simp [wellFormed, h2, hwf2]
              · simpa [subtreeAt] using h3
              · simp only [countNodes] at h4 ⊢
                omega
              · simp only [specLabelsDFS]
                exact h5.append_right _
            | false =>
              simp [subtreeAt] at hsub
              obtain ⟨c', h1, h2, h3, h4, h5⟩ := ih c2 hwf2 hsub
              refine ⟨.mk rq (some c1) (some c') none, ?_, ?_, ?_, ?_, ?_⟩
              · simp [learnAlong, h1]
              · simp [wellFormed, h2, hwf1]
              · simpa [subtreeAt] using h3
              · simp only [countNodes] at h4 ⊢
                omega
              · simp only [specLabelsDFS]
                exact (List.Perm.append_left _ h5).trans List.perm_middle

/-- Dereferencing the empty path is the node itself. -/
theorem subtreeAt_nil (r : Node) : subtreeAt r [] = some r := by
  cases r; rfl

/-- Following a path reference to a question node, `learnNewAnimal` hits the
null `animal` dereference and no mutated tree is produced. -/
theorem learnAlong_question_crash (p : List Bool) (r n : Node)
    (nm q ans : String) (hsub : subtreeAt r p = some n)
    (hq : n.animal = none) :
    learnAlong r p nm q ans = none := by
  induction p generalizing r with
  | nil =>
    simp only [subtreeAt, Option.some.injEq] at hsub
    subst hsub
    simp [learnAlong, learnAt, hq]
  | cons b p' ih =>
    cases r with
    | mk rq ry rn ra =>
      cases hc : (if b then ry else rn) with
      | none => simp [learnAlong, hc]
      | some c =>
        simp only [subtreeAt, hc] at hsub
        simp [learnAlong, hc, ih c hsub]

/-- A successful `learnNewAnimal` call means the reference did point at a
live leaf of the tree. -/
theorem learnAlong_some_inv (p : List Bool) (r r' : Node) (nm q ans : String)
    (h : learnAlong r p nm q ans = some r') :
    ∃ l x, subtreeAt r p = some l ∧ l.animal = some x := by
  induction p generalizing r r' with
  | nil =>
    cases hx : r.animal with
    | none => simp [learnAlong, learnAt, hx] at h
    | some x => exact ⟨r, x, subtreeAt_nil r, hx⟩
  | cons b p' ih =>
    cases r with
    | mk rq ry rn ra =>
      cases hc : (if b then ry else rn) with
      | none => simp [learnAlong, hc] at h
      | some c =>
        cases hrec : learnAlong c p' nm q ans with
        | none => simp [learnAlong, hc, hrec] at h
        | some c' =>
          obtain ⟨l, x, hl, hx⟩ := ih c c' hrec
          exact ⟨l, x, by simp [subtreeAt, hc, hl], hx⟩

/-- The default tree is well-formed. -/
theorem wellFormed_defaultRoot : wellFormed defaultRoot = true := rfl

/-- Every reachable tree state has a non-null root owning a well-formed
node graph. -/
theorem reachable_wellFormed (t : AnimalTree) (h : Reachable t) :
    ∃ r, t.root = some r ∧ wellFormed r = true := by
  induction h with
  | init => exact ⟨defaultRoot, rfl, wellFormed_defaultRoot⟩
  | reset t _ _ => exact ⟨defaultRoot, rfl, wellFormed_defaultRoot⟩
  | learned t p nm q ans t' _ hlearn ih =>
    obtain ⟨r, hroot, hwf⟩ := ih
    simp only [learn, hroot] at hlearn
    cases hal : learnAlong r p nm q ans with
    | none => rw [hal] at hlearn; simp at hlearn
    | some r' =>
      rw [hal] at hlearn
      simp at hlearn
      obtain ⟨l, x, hl, hx⟩ := learnAlong_some_inv p r r' nm q ans hal
      obtain ⟨r'', h1, h2, _⟩ := learnAlong_leaf_spec p r l x nm q ans hwf hl hx
      rw [hal] at h1
      cases h1
      subst hlearn
      exact ⟨r', rfl, h2⟩

/-- Subtrees of a well-formed node are well-formed. -/
theorem wellFormed_subtreeAt (p : List Bool) (r n : Node)
    (hwf : wellFormed r = true) (hsub : subtreeAt r p = some n) :
    wellFormed n = true := by
  induction p generalizing r with
  | nil =>
    simp only [subtreeAt, Option.some.injEq] at hsub
    subst hsub; exact hwf
  | cons b p' ih =>
    cases r with
    | mk rq ry rn ra =>
      cases ra <;> cases ry <;> cases rn <;> simp [wellFormed] at hwf <;>
        cases b <;> simp [subtreeAt] at hsub
      case none.some.some.true c1 c2 =>
        exact ih c1 hwf.1 hsub
      case none.some.some.false c1 c2 =>
        exact ih c2 hwf.2 hsub

/-- Dereferencing a concatenated path dereferences the first part, then the
second from there. -/
theorem subtreeAt_append (p1 p2 : List Bool) (r : Node) :
    subtreeAt r (p1 ++ p2) = (subtreeAt r p1).bind (fun n => subtreeAt n p2) := by
  induction p1 generalizing r with
  | nil => simp [subtreeAt_nil]
  | cons b p' ih =>
    cases r with
    | mk rq ry rn ra =>
      cases hc : (if b then ry else rn) with
      | none => simp [subtreeAt, hc]
      | some c => simp [subtreeAt, hc, ih]

/-- If a path dereferences, so does every prefix of it. -/
theorem subtreeAt_prefix_some (r l : Node) (p : List Bool) (i : Nat)
    (hsub : subtreeAt r p = some l) :
    ∃ n, subtreeAt r (p.take i) = some n := by
  have h := subtreeAt_append (p.take i) (p.drop i) r
  rw [List.take_append_drop, hsub] at h
  cases hc : subtreeAt r (p.take i) with
  | none => rw [hc] at h; simp at h
  | some n => exact ⟨n, rfl⟩

/-- Any child reached through a non-null child pointer has strictly fewer
nodes than its parent. -/
theorem countNodes_child_lt (rq : String) (ry rn : Option Node)
    (ra : Option String) (b : Bool) (c : Node)
    (hc : (if b then ry else rn) = some c) :
    countNodes (some c) < countNodes (some (.mk rq ry rn ra)) := by
  cases b with
  | true =>
    simp at hc
    subst hc
    simp only [countNodes]
    omega
  | false =>
    simp at hc
    subst hc
    simp only [countNodes]
    omega

/-- Along a dereferenceable path, each step of the cursor strictly shrinks
the subtree it points at. -/
theorem countNodes_take_succ_lt (r l : Node) (p : List Bool) (i : Nat)
    (hsub : subtreeAt r p = some l) (hi : i < p.length) :
    countNodes (subtreeAt r (p.take (i + 1))) <
      countNodes (subtreeAt r (p.take i)) := by
  obtain ⟨n, hn⟩ := subtreeAt_prefix_some r l p i hsub
  have htake : p.take (i + 1) = p.take i ++ [p[i]] := by
    rw [List.take_succ]
    simp [List.getElem?_eq_getElem hi]
  rw [htake, subtreeAt_append, hn]
  show countNodes (subtreeAt n [p[i]]) < countNodes (some n)
  obtain ⟨m, hm⟩ := subtreeAt_prefix_some r l p (i + 1) hsub
  rw [htake, subtreeAt_append, hn] at hm
  have hm' : subtreeAt n [p[i]] = some m := hm
  cases n with
  | mk nq ny nn na =>
    cases hc : (if p[i] then ny else nn) with
    | none => simp [subtreeAt, hc] at hm'
    | some c =>
      have hstep : subtreeAt (Node.mk nq ny nn na) [p[i]] = some c := by
        simp [subtreeAt, hc, subtreeAt_nil]
      rw [hstep]
      exact countNodes_child_lt nq ny nn na p[i] c hc

/-- Strictly fewer nodes at any later cursor position than at any earlier
one: consistent traversal never returns to a position it has left. -/
theorem countNodes_take_lt (r l : Node) (p : List Bool)
    (hsub : subtreeAt r p = some l) (i j : Nat) (hij : i < j)
    (hj : j ≤ p.length) :
    countNodes (subtreeAt r (p.take j)) < countNodes (subtreeAt r (p.take i)) := by
  induction j with
  | zero => omega
  | succ j ih =>
    rcases Nat.lt_or_ge i j with h | h
    · exact lt_trans (countNodes_take_succ_lt r l p j hsub (by omega))
        (ih h (by omega))
    · have hij' : i = j := by omega
      subst hij'
      exact countNodes_take_succ_lt r l p i hsub (by omega)

/-- Feeding the traversal loop the tokens of a path that leads to a leaf of
a well-formed tree drives the cursor exactly to that leaf. -/
theorem traverse_path (p : List Bool) (r l : Node) (x : String)
    (hwf : wellFormed r = true) (hsub : subtreeAt r p = some l)
    (hx : l.animal = some x) :
    traverse r (p.map fun b => if b then "yes" else "no") = some l := by
  induction p generalizing r with
  | nil =>
    rw [subtreeAt_nil] at hsub
    cases hsub
    rfl
  | cons b p' ih =>
    cases r with
    | mk rq ry rn ra =>
      cases ra <;> cases ry <;> cases rn <;> simp [wellFormed] at hwf <;>
        cases b <;> simp [subtreeAt] at hsub
      case none.some.some.true c1 c2 =>
        have hrec := ih c1 hwf.1 hsub
        simpa [traverse, Node.isLeaf, Node.animal, traverseStep, Node.yes]
          using hrec
      case none.some.some.false c1 c2 =>
        have hrec := ih c2 hwf.2 hsub
        simpa [traverse, Node.isLeaf, Node.animal, traverseStep, Node.no]
          using hrec

/-- The `answer == "yes"` test in `learnNewAnimal` is the only place the
teaching answer token is inspected: any other token takes the `else`
branch, exactly as the literal token `"no"` does. -/
theorem learnAt_ans_eq (cur : Node) (nm q ans : String) (hans : ans ≠ "yes") :
    learnAt cur nm q ans = learnAt cur nm q "no" := by
  cases hx : cur.animal <;> simp [learnAt, hx, hans]

/-- Path-level version of `learnAt_ans_eq`. -/
theorem learnAlong_ans_eq (p : List Bool) (r : Node) (nm q ans : String)
    (hans : ans ≠ "yes") :
    learnAlong r p nm q ans = learnAlong r p nm q "no" := by
  induction p generalizing r with
  | nil =>
    cases r with
    | mk rq ry rn ra => exact learnAt_ans_eq _ nm q ans hans
  | cons b p' ih =>
    cases r with
    | mk rq ry rn ra =>
      cases hc : (if b then ry else rn) with
      | none => simp [learnAlong, hc]
      | some c => simp [learnAlong, hc, ih]

/-! ### Claim theorems -/

/-- C3: immediately after tree construction and immediately after every
call to `resetToInitialState`, the root is a question node (null `animal`)
with text "Is your animal warm or cold blooded?", its `yes` child is the
leaf "Dog", its `no` child is the leaf "Snake", and `collectLabels`
returns exactly ["Dog", "Snake"] in that order. -/
theorem claim_C3_default_shape (t : AnimalTree) :
    AnimalTree.new.getRoot = some defaultRoot ∧
    t.resetToInitialState.getRoot = some defaultRoot ∧
    defaultRoot.animal = none ∧
    defaultRoot.question = "Is your animal warm or cold blooded?" ∧
    defaultRoot.yes = some (leafNode "Dog") ∧
    defaultRoot.no = some (leafNode "Snake") ∧
    collectLabels AnimalTree.new = ["Dog", "Snake"] ∧
    collectLabels t.resetToInitialState = ["Dog", "Snake"] := by
  refine ⟨rfl, rfl, rfl, rfl, rfl, rfl, ?_, ?_⟩ <;>
    simp [collectLabels, AnimalTree.new, AnimalTree.resetToInitialState,
      AnimalTree.getRoot, collectAnimals, defaultRoot, leafNode]

/-- C9: `listAnimals`/`collectAnimals` produces the leaf labels in
depth-first order with the `yes` branch before the `no` branch (the
spec-side `specLabelsDFS`), and the call leaves the tree exactly as it
was (the C++ method is `const` and performs no writes). -/
theorem claim_C9_collect_dfs_readonly (t : AnimalTree) :
    (listAnimalsCall t).1 = specLabelsDFS t.getRoot ∧
    (listAnimalsCall t).2 = t :=
  ⟨collectLabels_eq_spec t, rfl⟩

/-- C6 (code bug): at the guess-confirmation step, an answer token that is
neither "yes" nor "no" does NOT re-prompt within the confirmation state:
the code prints the message and `askQuestions` returns, terminating the
round (control falls to the post-round menu).  Evaluated at the concrete
failing input: default tree, cursor at the "Dog" leaf, token "maybe". -/
theorem claim_C6_invalid_confirmation_ends_round :
    confirmGuess (leafNode "Dog") "maybe" "Cat" "Does it bark?" "no" =
      ConfirmResult.invalidTokenRoundEnds :=
  rfl

/-- C2 counterexample: the code performs no reference validation at all.
First conjunct: `learn` on the root reference of the default tree — a
question node — dereferences the null `animal` pointer (modeled `none`, a
crash), so no `InvalidReference` condition is signalled with the tree left
intact.  Second conjunct: the in-place mutation applied to a leaf node
that belongs to a different tree instance succeeds and mutates that
foreign node — nothing is rejected. -/
theorem claim_C2_counterexample :
    learn AnimalTree.new [] "Cat" "Q" "yes" = none ∧
    learnAt (leafNode "Snake") "Cat" "Q" "yes" =
      some (.mk "Q" (some (leafNode "Cat")) (some (leafNode "Snake")) none) :=
  ⟨rfl, rfl⟩

/-- C2 amended: `learnNewAnimal` invoked through a reference to a question
node of the tree does not signal any condition — it dereferences the null
`animal` pointer, a crash modeled as `none`; no mutated tree results. -/
theorem claim_C2_amended_crash_on_question_ref (t : AnimalTree) (r n : Node)
    (p : List Bool) (nm q ans : String) (hroot : t.getRoot = some r)
    (hsub : subtreeAt r p = some n) (hq : n.animal = none) :
    learn t p nm q ans = none := by
  have hcrash := learnAlong_question_crash p r n nm q ans hsub hq
  have hroot' : t.root = some r := hroot
  simp [learn, hroot', hcrash]

/-- Witness for C2's amended theorem at a concrete input: the default
tree with the root (question-node) reference. -/
theorem claim_C2_amended_witness :
    learn AnimalTree.new [] "Cat" "Q" "no" = none :=
  claim_C2_amended_crash_on_question_ref AnimalTree.new defaultRoot
    defaultRoot [] "Cat" "Q" "no" rfl (subtreeAt_nil defaultRoot) rfl

/-- C7: in the traversal loop, at a question node, a token that is neither
"yes" nor "no" leaves the cursor (and the tree) unchanged — the loop only
prints a re-prompt — while "yes" and "no" advance the cursor to the
corresponding child pointer; the tree component is untouched in every
case. -/
theorem claim_C7_traversing_invalid_noop (t : AnimalTree) (cur : Node)
    (ans : String) (hq : cur.animal = none) (hyes : ans ≠ "yes")
    (hno : ans ≠ "no") :
    loopIter t cur ans = (t, some cur) ∧
    loopIter t cur "yes" = (t, cur.yes) ∧
    loopIter t cur "no" = (t, cur.no) := by
  refine ⟨?_, ?_, ?_⟩ <;> simp [loopIter, traverseStep, hyes, hno]

/-- Witness for C7 at a concrete input: the default root and the token
"maybe". -/
theorem claim_C7_witness :
    loopIter AnimalTree.new defaultRoot "maybe" =
      (AnimalTree.new, some defaultRoot) ∧
    loopIter AnimalTree.new defaultRoot "yes" =
      (AnimalTree.new, defaultRoot.yes) ∧
    loopIter AnimalTree.new defaultRoot "no" =
      (AnimalTree.new, defaultRoot.no) :=
  claim_C7_traversing_invalid_noop AnimalTree.new defaultRoot "maybe" rfl
    (by decide) (by decide)

/-- C1: teaching at a leaf holding label `x` with answer "yes" turns that
node into a question node whose `yes` child is a fresh leaf with the new
label and whose `no` child is a fresh leaf with `x`; with answer "no" the
two children are swapped; in both cases the multiset of labels of the
tree is exactly the old one plus the new label (nothing lost, nothing
duplicated). -/
theorem claim_C1_learn_branch_and_labels (t : AnimalTree) (r l : Node)
    (p : List Bool) (x nm q : String) (hroot : t.getRoot = some r)
    (hwf : wellFormed r = true) (hsub : subtreeAt r p = some l)
    (hx : l.animal = some x) :
    (∃ t' r', learn t p nm q "yes" = some t' ∧ t'.getRoot = some r' ∧
      subtreeAt r' p =
        some (.mk q (some (leafNode nm)) (some (leafNode x)) none) ∧
      (collectLabels t').Perm (nm :: collectLabels t)) ∧
    (∃ t' r', learn t p nm q "no" = some t' ∧ t'.getRoot = some r' ∧
      subtreeAt r' p =
        some (.mk q (some (leafNode x)) (some (leafNode nm)) none) ∧
      (collectLabels t').Perm (nm :: collectLabels t)) := by
  have hroot' : t.root = some r := hroot
  have hct : collectLabels t = specLabelsDFS (some r) := by
    rw [collectLabels_eq_spec, hroot]
  constructor
  · obtain ⟨r', h1, _, h3, _, h5⟩ :=
      learnAlong_leaf_spec p r l x nm q "yes" hwf hsub hx
    refine ⟨⟨some r'⟩, r', ?_, rfl, ?_, ?_⟩
    · simp [learn, hroot', h1]
    · rw [h3]; simp
    · have hc' : collectLabels ⟨some r'⟩ = specLabelsDFS (some r') := by
        rw [collectLabels_eq_spec]
        rfl
      rw [hc', hct]
      exact h5
  · obtain ⟨r', h1, _, h3, _, h5⟩ :=
      learnAlong_leaf_spec p r l x nm q "no" hwf hsub hx
    refine ⟨⟨some r'⟩, r', ?_, rfl, ?_, ?_⟩
    · simp [learn, hroot', h1]
    · rw [h3]; simp
    · have hc' : collectLabels ⟨some r'⟩ = specLabelsDFS (some r') := by
        rw [collectLabels_eq_spec]
        rfl
      rw [hc', hct]
      exact h5

/-- Witness for C1 at a concrete input: default tree, reference to the
"Dog" leaf (the `yes` path), new label "Cat", question "Does it bark?". -/
theorem claim_C1_witness :
    (∃ t' r', learn AnimalTree.new [true] "Cat" "Does it bark?" "yes" =
        some t' ∧ t'.getRoot = some r' ∧
      subtreeAt r' [true] =
        some (.mk "Does it bark?" (some (leafNode "Cat"))
          (some (leafNode "Dog")) none) ∧
      (collectLabels t').Perm ("Cat" :: collectLabels AnimalTree.new)) ∧
    (∃ t' r', learn AnimalTree.new [true] "Cat" "Does it bark?" "no" =
        some t' ∧ t'.getRoot = some r' ∧
      subtreeAt r' [true] =
        some (.mk "Does it bark?" (some (leafNode "Dog"))
          (some (leafNode "Cat")) none) ∧
      (collectLabels t').Perm ("Cat" :: collectLabels AnimalTree.new)) :=
  claim_C1_learn_branch_and_labels AnimalTree.new defaultRoot
    (leafNode "Dog") [true] "Dog" "Cat" "Does it bark?" rfl rfl rfl rfl

/-- C4: every successful `learnNewAnimal` call adds exactly two nodes to
the tree (the leaf becomes a question node with two fresh leaves), so the
node count strictly grows; `learn` and `resetToInitialState` are the
only operations of the embedding that produce a new tree state at all,
and only the reset ever discards nodes. -/
theorem claim_C4_growth (t t' : AnimalTree) (r l : Node) (p : List Bool)
    (x nm q ans : String) (hroot : t.getRoot = some r)
    (hwf : wellFormed r = true) (hsub : subtreeAt r p = some l)
    (hx : l.animal = some x) (hlearn : learn t p nm q ans = some t') :
    treeCount t' = treeCount t + 2 ∧ treeCount t < treeCount t' := by
  have hroot' : t.root = some r := hroot
  obtain ⟨r', h1, _, _, h4, _⟩ :=
    learnAlong_leaf_spec p r l x nm q ans hwf hsub hx
  simp [learn, hroot', h1] at hlearn
  subst hlearn
  have htc : treeCount t = countNodes (some r) := by
    simp [treeCount, AnimalTree.getRoot, hroot']
  constructor
  · show countNodes (some r') = treeCount t + 2
    rw [h4, htc]
  · show treeCount t < countNodes (some r')
    rw [h4, htc]
    omega

/-- Witness for C4 at a concrete input: teaching "Cat" at the "Dog" leaf
of the default tree grows the node count from 3 to 5. -/
theorem claim_C4_witness :
    treeCount (AnimalTree.mk (some (.mk "Is your animal warm or cold blooded?"
        (some (.mk "Does it bark?" (some (leafNode "Cat"))
          (some (leafNode "Dog")) none))
        (some (leafNode "Snake")) none))) =
      treeCount AnimalTree.new + 2 ∧
    treeCount AnimalTree.new <
      treeCount (AnimalTree.mk (some (.mk "Is your animal warm or cold blooded?"
        (some (.mk "Does it bark?" (some (leafNode "Cat"))
          (some (leafNode "Dog")) none))
        (some (leafNode "Snake")) none))) :=
  claim_C4_growth AnimalTree.new _ defaultRoot (leafNode "Dog") [true]
    "Dog" "Cat" "Does it bark?" "yes" rfl rfl rfl rfl rfl

/-- C5: on any reachable tree (built from the default shape by resets and
learn calls), feeding the traversal loop the yes/no tokens of a path that
leads to a leaf drives the cursor to exactly that leaf, consuming one token
per step — as many steps as the path is long, i.e. the leaf's depth — and
the subtree under the cursor strictly shrinks at every step, so no
position is ever revisited (the tree is finite and acyclic). -/
theorem claim_C5_consistent_traversal (t : AnimalTree) (r l : Node)
    (p : List Bool) (x : String) (ht : Reachable t)
    (hroot : t.getRoot = some r) (hsub : subtreeAt r p = some l)
    (hx : l.animal = some x) :
    traverse r (p.map fun b => if b then "yes" else "no") = some l ∧
    (p.map fun b => if b then "yes" else "no").length = p.length ∧
    StrictAntiOn (fun i => countNodes (subtreeAt r (p.take i)))
      (Set.Iic p.length) := by
  obtain ⟨r0, hr0, hwf⟩ := reachable_wellFormed t ht
  have hr0' : t.getRoot = some r0 := hr0
  rw [hroot] at hr0'
  injection hr0' with h
  subst h
  refine ⟨traverse_path p r l x hwf hsub hx, by simp, ?_⟩
  intro i _ j hj hij
  exact countNodes_take_lt r l p hsub i j hij (Set.mem_Iic.mp hj)

/-- Witness for C5 at a concrete input: default tree, the `yes` path to
the "Dog" leaf. -/
theorem claim_C5_witness :
    traverse defaultRoot ([true].map fun b => if b then "yes" else "no") =
      some (leafNode "Dog") ∧
    ([true].map fun b => if b then "yes" else "no").length = [true].length ∧
    StrictAntiOn (fun i => countNodes (subtreeAt defaultRoot ([true].take i)))
      (Set.Iic [true].length) :=
  claim_C5_consistent_traversal AnimalTree.new defaultRoot (leafNode "Dog")
    [true] "Dog" Reachable.init rfl rfl rfl

/-- C8: in every reachable tree state the root pointer is non-null, and
every question node (null `animal`) reachable in the tree has both a
non-null `yes` child and a non-null `no` child. -/
theorem claim_C8_rootHandle_and_children (t : AnimalTree)
    (h : Reachable t) :
    ∃ r, t.getRoot = some r ∧
      ∀ p n, subtreeAt r p = some n → n.animal = none →
        n.yes.isSome = true ∧ n.no.isSome = true := by
  obtain ⟨r, hroot, hwf⟩ := reachable_wellFormed t h
  refine ⟨r, hroot, fun p n hsub hq => ?_⟩
  have hwfn := wellFormed_subtreeAt p r n hwf hsub
  cases n with
  | mk nq ny nn na =>
    simp only [Node.animal] at hq
    subst hq
    cases ny <;> cases nn <;> simp [wellFormed] at hwfn <;>
      simp [Node.yes, Node.no]

/-- Witness for C8 at a concrete input: the freshly constructed tree. -/
theorem claim_C8_witness :
    ∃ r, AnimalTree.new.getRoot = some r ∧
      ∀ p n, subtreeAt r p = some n → n.animal = none →
        n.yes.isSome = true ∧ n.no.isSome = true :=
  claim_C8_rootHandle_and_children AnimalTree.new Reachable.init

/-- C10: in `learnNewAnimal`, the teaching answer is compared only against
the literal "yes": any other token — "no", the empty string, or arbitrary
garbage — silently takes the `else` branch, so the call succeeds exactly
as with "no", placing the old label on the `yes` child and the new label
on the `no` child; nothing is rejected at this step. -/
theorem claim_C10_nonyes_token_acts_as_no (t : AnimalTree) (r l : Node)
    (p : List Bool) (x nm q ans : String) (hroot : t.getRoot = some r)
    (hwf : wellFormed r = true) (hsub : subtreeAt r p = some l)
    (hx : l.animal = some x) (hans : ans ≠ "yes") :
    learn t p nm q ans = learn t p nm q "no" ∧
    (∃ t' r', learn t p nm q ans = some t' ∧ t'.getRoot = some r' ∧
      subtreeAt r' p =
        some (.mk q (some (leafNode x)) (some (leafNode nm)) none)) := by
  have hroot' : t.root = some r := hroot
  have heq : learn t p nm q ans = learn t p nm q "no" := by
    simp [learn, hroot', learnAlong_ans_eq p r nm q ans hans]
  refine ⟨heq, ?_⟩
  obtain ⟨r', h1, _, h3, _, _⟩ :=
    learnAlong_leaf_spec p r l x nm q "no" hwf hsub hx
  refine ⟨⟨some r'⟩, r', ?_, rfl, ?_⟩
  · rw [heq]
    simp [learn, hroot', h1]
  · rw [h3]
    simp

/-- Witness for C10 at a concrete input: default tree, the "Dog" leaf,
and the garbage token "banana". -/
theorem claim_C10_witness :
    learn AnimalTree.new [true] "Cat" "Does it bark?" "banana" =
      learn AnimalTree.new [true] "Cat" "Does it bark?" "no" ∧
    (∃ t' r', learn AnimalTree.new [true] "Cat" "Does it bark?" "banana" =
        some t' ∧ t'.getRoot = some r' ∧
      subtreeAt r' [true] =
        some (.mk "Does it bark?" (some (leafNode "Dog"))
          (some (leafNode "Cat")) none)) :=
  claim_C10_nonyes_token_acts_as_no AnimalTree.new defaultRoot
    (leafNode "Dog") [true] "Dog" "Cat" "Does it bark?" "banana"
    rfl rfl rfl rfl (by decide)

end HW3
